import Mathlib

/-
Verification of the FloridaRAMA-Calendar event pipeline.

This file gives a shallow embedding, in Lean 4, of the pure data
transformations of the repository:

- scripts/sync_fareharbor_events.mjs : the FareHarbor scrape/assemble
  pipeline (deduplication, merge against the persisted document, date
  filtering, sorting, the empty-write guard, and the time/date
  normalisation helpers), and
- cloudflare-worker/src/index.js : the webhook receiver (request gating
  and token authentication).

Modelling conventions:

- JavaScript strings are Lean String values; character-level work is done
  on the underlying character list (String.data).  The string operations
  of the source (padStart, slice, trim, toLowerCase, startsWith,
  includes) are re-implemented on character lists.
- JavaScript regular-expression matches are represented by their capture
  groups: a function that in the source begins with text.match(re) is
  embedded as a function of the (optional) captured groups of that match.
- The JavaScript Map used for deduplication is represented by the
  insertion-ordered list of its values, with key membership tested by
  scanning, which preserves both first-wins semantics and value order.
- String comparison (the < / >= operators and localeCompare on the
  all-ASCII, fixed-format strings this pipeline compares) is embedded as
  lexicographic comparison of Unicode code points (lexLe below).
- Fallible steps return Option; process.exitCode becomes an explicit
  numeric component of the result.
-/

/-- Lexicographic less-or-equal on character lists, comparing code points.
This embeds the string comparisons performed by the source: the JS string
relational operators compare UTF-16 code units, and localeCompare is used
by the source only on fixed-format ASCII timestamps, where both agree
with code-point order. -/
def lexLe : List Char → List Char → Bool
  | [], _ => true
  | _ :: _, [] => false
  | a :: as, b :: bs =>
    if a.toNat < b.toNat then true
    else if b.toNat < a.toNat then false
    else lexLe as bs

/-- Test whether pat is a leading segment of l (JS String.startsWith on
the underlying characters). -/
def startsWithList : List Char → List Char → Bool
  | [], _ => true
  | _ :: _, [] => false
  | p :: ps, c :: cs => p == c && startsWithList ps cs

/-- Test whether pat occurs contiguously inside l (JS String.includes). -/
def containsSub : List Char → List Char → Bool
  | l, pat =>
    startsWithList pat l ||
      match l with
      | [] => false
      | _ :: t => containsSub t pat

/-- Whitespace test used to embed JS trim and the \s character class (the
common ASCII whitespace characters that occur in the scraped text). -/
def jsSpace (c : Char) : Bool :=
  c == ' ' || c == '\t' || c == '\n' || c == '\r' || c == '\x0b' || c == '\x0c'

/-- Remove leading and trailing whitespace (JS String.trim). -/
def trimList (l : List Char) : List Char :=
  ((l.dropWhile jsSpace).reverse.dropWhile jsSpace).reverse

/-- ASCII lower-casing of one character (what JS toLowerCase does on the
ASCII-only header and URL strings this code lower-cases). -/
def asciiLower (c : Char) : Char :=
  if 'A' ≤ c && c ≤ 'Z' then Char.ofNat (c.toNat + 32) else c

/-- Lower-case a character list. -/
def asciiLowerList (l : List Char) : List Char := l.map asciiLower

/-- Fuelled most-significant-first decimal rendering: the digit
characters of n, highest place first. -/
def natStrAux : Nat → Nat → List Char
  | 0, _ => []
  | fuel + 1, n =>
    if n < 10 then [Nat.digitChar n]
    else natStrAux fuel (n / 10) ++ [Nat.digitChar (n % 10)]

/-- Decimal rendering of a natural number (JS String(n) for the
non-negative integers this pipeline renders). -/
def natStr (n : Nat) : List Char := natStrAux (n + 1) n

/-- Left-pad a character list to width w with c (JS String.padStart). -/
def padStartList (w : Nat) (c : Char) (l : List Char) : List Char :=
  List.replicate (w - l.length) c ++ l

/-- String(n).padStart(2, "0"). -/
def pad2 (n : Nat) : List Char := padStartList 2 '0' (natStr n)

/-- String(n).padStart(4, "0"). -/
def pad4 (n : Nat) : List Char := padStartList 4 '0' (natStr n)

/-- Calendar event record, the shape shared by scraped candidates and
persisted events: title, start, end, url and an optional thumbnail.
Missing string fields of arbitrary persisted JSON objects are represented
by the empty string (JS undefined is falsy exactly like ""); a missing
thumbnail is none.  The end field is named endT because end is a Lean
keyword. -/
structure Ev where
  title : String
  start : String
  endT : String
  url : String
  thumbnail : Option String
deriving DecidableEq, Repr

/-- Embeds the candidate-cleaning step of main (sync_fareharbor_events.mjs
lines 721-727): rebuild the record from the four required fields and keep
the thumbnail only when it is truthy. -/
def cleanEvent (e : Ev) : Ev :=
  { title := e.title
    start := e.start
    endT := e.endT
    url := e.url
    thumbnail :=
      match e.thumbnail with
      | some s => if s = "" then none else some s
      | none => none }

/-- Embeds the Map key of the dedup step (line 729): the template string
url ++ "::" ++ start. -/
def dedupKey (e : Ev) : String := e.url ++ "::" ++ e.start

/-- Accumulator pass of the dedup loop (lines 719-731): byKey.has(key)
is a scan of the already-inserted values, byKey.set appends, so the
accumulator is the Map's values in insertion order. -/
def dedupGo : List Ev → List Ev → List Ev
  | [], acc => acc
  | e :: rest, acc =>
    let clean := cleanEvent e
    if acc.any (fun x => dedupKey x == dedupKey clean) then dedupGo rest acc
    else dedupGo rest (acc ++ [clean])

/-- Embeds the whole dedup step of main (lines 718-731): clean each
scraped candidate and keep the first candidate for each composite key. -/
def dedupEvents (scraped : List Ev) : List Ev := dedupGo scraped []

/-- Characters that terminate the authority component of a URL. -/
def authEnd (c : Char) : Bool := c == '/' || c == '?' || c == '#'

/-- Characters that terminate the path component of a URL. -/
def pathEnd (c : Char) : Bool := c == '?' || c == '#'

/-- Hostname and pathname view of a parsed URL. -/
structure UrlParts where
  hostname : String
  pathname : String
deriving DecidableEq, Repr

/-- Strip a trailing :port from an authority that has already had any
userinfo removed (everything from the first colon on is the port). -/
def stripPort (host : List Char) : List Char := host.takeWhile (fun c => c != ':')

/-- Strip a leading userinfo@ from the authority (the WHATWG parser cuts
at the last commercial-at sign). -/
def stripUserinfo (auth : List Char) : List Char :=
  if auth.any (fun c => c == '@') then
    ((auth.reverse.takeWhile (fun c => c != '@')).reverse)
  else auth

/-- Embeds new URL(s) of the WHATWG URL standard, restricted to the
absolute special-scheme URLs this repository handles: scheme, "//",
authority (userinfo and port stripped from the lower-cased hostname),
then a pathname running to the first query or fragment delimiter; an
empty path is serialised as "/".  Inputs without a scheme or with an
empty host fail to parse, as new URL would throw. -/
def urlParse (s : String) : Option UrlParts :=
  let d := s.data
  let scheme := d.takeWhile (fun c => c != ':')
  let rest := d.dropWhile (fun c => c != ':')
  if scheme.isEmpty || !scheme.all (fun c => c.isAlpha) then none
  else
    match rest with
    | ':' :: '/' :: '/' :: rest2 =>
      let auth := rest2.takeWhile (fun c => !authEnd c)
      let afterAuth := rest2.dropWhile (fun c => !authEnd c)
      let host := asciiLowerList (stripPort (stripUserinfo auth))
      let path := afterAuth.takeWhile (fun c => !pathEnd c)
      if host.isEmpty then none
      else some ⟨String.mk host, String.mk (if path.isEmpty then ['/'] else path)⟩
    | _ => none

/-- The company path segment, the default FAREHARBOR_COMPANY value used
by the deployment (the claims are about the default configuration). -/
def COMPANY : String := "floridarama"

/-- Embeds isFareharborEvent (lines 574-581): parse the event URL and
test that the hostname contains fareharbor.com and the pathname contains
the company items segment; a URL that fails to parse is not a platform
event. -/
def isFareharborEvent (e : Ev) : Bool :=
  match urlParse e.url with
  | some u =>
    containsSub u.hostname.data "fareharbor.com".data &&
      containsSub u.pathname.data ("/embeds/book/" ++ COMPANY ++ "/items/").data
  | none => false

/-- One side of a 12-hour clock time as captured by the time regexes:
hour digits, optional minute digits, and the meridiem token as written
(for example "P.M."); ap is none when the side carried no marker. -/
structure ClockSide where
  h : Nat
  m : Option Nat
  ap : Option String
deriving DecidableEq, Repr

/-- A normalised 12-hour time: hour, minute and the meridiem string "AM"
or "PM" (the shape built by parseEventTimeRange / parseStartTimeAndDuration). -/
structure Tw where
  h : Nat
  m : Nat
  ap : String
deriving DecidableEq, Repr

/-- A start/end time window. -/
structure TimeRange where
  start : Tw
  endT : Tw
deriving DecidableEq, Repr

/-- Embeds normAp (lines 246-251 and 287-292): upper-case the token,
drop periods, and accept exactly "AM" or "PM". -/
def normAp : Option String → Option String
  | none => none
  | some s =>
    let t := String.mk ((asciiLowerList s.data).map (fun c =>
      if 'a' ≤ c && c ≤ 'z' then Char.ofNat (c.toNat - 32) else c) |>.filter (fun c => c != '.'))
    if t = "AM" || t = "PM" then some t else none

/-- The capture groups of one match of the time-range regular expression
(line 258-259): start hour/minutes/meridiem, end hour/minutes/meridiem.
The hour groups are mandatory digits, the minute and meridiem groups are
optional. -/
structure RangeMatch where
  start : ClockSide
  endT : ClockSide
deriving DecidableEq, Repr

/-- Embeds parseEventTimeRange (lines 239-278) from the first match of
the range regex onward (the match itself is represented by its capture
groups; none means the regex did not match).  If exactly one side carries
a meridiem the other side inherits it; if neither side carries one the
match is rejected. -/
def parseEventTimeRange (mo : Option RangeMatch) : Option TimeRange :=
  match mo with
  | none => none
  | some mt =>
    let sap0 := normAp mt.start.ap
    let eap0 := normAp mt.endT.ap
    let sap := if sap0.isNone && eap0.isSome then eap0 else sap0
    let eap := if eap0.isNone && sap.isSome then sap else eap0
    match sap, eap with
    | some s, some e =>
      some { start := { h := mt.start.h, m := mt.start.m.getD 0, ap := s }
             endT := { h := mt.endT.h, m := mt.endT.m.getD 0, ap := e } }
    | _, _ => none

/-- Embeds to24Hour (lines 324-328): hour mod 12, plus 12 when PM. -/
def to24Hour (t : Tw) : Nat × Nat :=
  let hour := t.h % 12
  (if t.ap = "PM" then hour + 12 else hour, t.m)

/-- The decimal number captured by the hours group \\d+(\\.\\d+)? of
parseStartTimeAndDuration, represented exactly: its value is num / den,
where den is 10 to the number of fraction digits (so "2" is 2/1 and
"1.5" is 15/10).  JS evaluates Number(capture) in binary floating point;
the exact rational agrees with it on every value this pipeline meets. -/
structure JsDec where
  num : Nat
  den : Nat
deriving DecidableEq, Repr

/-- Embeds Math.round(x * 60) for the non-negative decimal x = num/den:
Math.round rounds half up, so the result is floor(60 * x + 1/2), which
for den > 0 equals (120 * num + den) / (2 * den) in Nat floor division. -/
def roundHours60 (d : JsDec) : Nat := (120 * d.num + d.den) / (2 * d.den)

/-- Embeds parseStartTimeAndDuration (lines 280-322) from the regex
captures onward: startM is the single-clock-time match (its meridiem
group is mandatory in that regex), hoursM the captured hours number,
minsM the captured minutes.  The duration is rounded to whole minutes
and added to the start time modulo 24*60; the resulting end keeps the
same calendar date. -/
def parseStartTimeAndDuration (startM : Option ClockSide)
    (hoursM : Option JsDec) (minsM : Option Nat) : Option TimeRange :=
  match startM with
  | none => none
  | some s =>
    match normAp s.ap with
    | none => none
    | some sap =>
      let fromHours : Nat := match hoursM with
        | some d => roundHours60 d
        | none => 0
      let durationMinutes : Nat := fromHours + minsM.getD 0
      if durationMinutes = 0 then none
      else
        let start24 := to24Hour { h := s.h, m := s.m.getD 0, ap := sap }
        let startTotal : Nat := start24.1 * 60 + start24.2
        let endTotal := (startTotal + durationMinutes) % (24 * 60)
        let endHour24 := endTotal / 60
        let endMinute := endTotal % 60
        let endAp := if 12 ≤ endHour24 then "PM" else "AM"
        let endHour12 := (endHour24 + 11) % 12 + 1
        some { start := { h := s.h, m := s.m.getD 0, ap := sap }
               endT := { h := endHour12, m := endMinute, ap := endAp } }

/-- Embeds ymdAndTimeToIsoLocal (lines 330-334): the template string
ymd ++ "T" ++ hh ++ ":" ++ mm ++ ":00" with both time fields zero-padded
to two characters. -/
def ymdAndTimeToIsoLocal (ymd : String) (hour minute : Nat) : String :=
  String.mk (ymd.data ++ 'T' :: (pad2 hour ++ ':' :: (pad2 minute ++ [':', '0', '0'])))

/-- The fixed month-name table of parseDateLabelToYmd (lines 213-226). -/
def monthNames : List String :=
  ["january", "february", "march", "april", "may", "june", "july",
   "august", "september", "october", "november", "december"]

/-- Embeds parseDateLabelToYmd (lines 206-237) from the captures of its
date-label regex onward: month name, day digits, year digits.  The month
name is matched case-insensitively against the fixed table; the result is
the dash-joined zero-padded date string. -/
def parseDateLabelToYmd (monthName : String) (day year : Nat) : Option String :=
  match (monthNames.indexOf? (String.mk (asciiLowerList monthName.data))) with
  | none => none
  | some monthIndex =>
    some (String.mk (pad4 year ++ '-' :: (pad2 (monthIndex + 1) ++ '-' :: pad2 day)))

/-- Embeds String(e.end || e.start || "").slice(0, 10) of the date filter
(line 737): the end field if truthy, else the start field if truthy, else
empty, truncated to the first ten characters. -/
def endYmdOf (e : Ev) : String :=
  String.mk ((if e.endT != "" then e.endT else if e.start != "" then e.start else "").data.take 10)

/-- Embeds the filter callback of main (lines 734-739): an event is kept
outright when kept non-platform events exist and it is not a platform
event; otherwise its end date (start date when end is missing) must be a
non-empty string at least todayYmd in string order. -/
def assembleFilter (keep : List Ev) (todayYmd : String) (e : Ev) : Bool :=
  if keep.length != 0 && !isFareharborEvent e then true
  else
    let endYmd := endYmdOf e
    endYmd != "" && lexLe todayYmd.data endYmd.data

/-- Insert an event into a list sorted ascending by start. -/
def insertByStart (e : Ev) : List Ev → List Ev
  | [] => [e]
  | x :: xs => if lexLe x.start.data e.start.data then x :: insertByStart e xs else e :: x :: xs

/-- Embeds out.sort((a, b) => String(a.start).localeCompare(String(b.start)))
(line 741) as an insertion sort by the start string: the embedding fixes
one sorted-by-start rearrangement, which is all the pipeline relies on. -/
def sortByStart (l : List Ev) : List Ev := l.foldr insertByStart []

/-- Embeds the merge partition of main (lines 621-630): the carried
events are the persisted ones that are not platform events. -/
def foreignOf (existing : List Ev) : List Ev :=
  existing.filter (fun e => !isFareharborEvent e)

/-- Embeds the assembly tail of main (lines 620-741) as a function of the
merge flag, the persisted sequence, the scraped candidates and todayYmd:
partition when merging, dedup the candidates, filter by date, sort by
start. -/
def mergeRun (mergeExisting : Bool) (existing scraped : List Ev) (todayYmd : String) : List Ev :=
  let keep := if mergeExisting then foreignOf existing else []
  sortByStart ((keep ++ dedupEvents scraped).filter (assembleFilter keep todayYmd))

/-- Embeds the write phase of main (lines 743-761) on an abstract
persisted document (the parsed contents of the events file, none when the
file does not exist): a dry run changes nothing and exits 0; with the
write flag set, an empty result without the empty-write override leaves
the document unchanged and sets exit code 2; otherwise the document is
replaced by the full result and the exit code stays 0. -/
def finishRun (shouldWrite allowEmpty : Bool) (out : List Ev)
    (file : Option (List Ev)) : Option (List Ev) × Nat :=
  if !shouldWrite then (file, 0)
  else if !allowEmpty && out.isEmpty then (file, 2)
  else (some out, 0)

/-- The webhook request as the worker reads it: method, path, the
declared body length (the content-length header, which the worker uses as
the body size), the four headers it consults, and the raw body. -/
structure WReq where
  method : String
  path : String
  contentLength : Nat
  authorization : Option String
  xWebhookToken : Option String
  xSignature256 : Option String
  xHubSignature256 : Option String
  body : String
deriving DecidableEq, Repr

/-- The worker configuration: the two secrets the auth checks read.  An
unset secret is the empty string (unset and empty are both falsy in the
source). -/
structure WEnv where
  webhookToken : String
  webhookHmacSecret : String
deriving DecidableEq, Repr

/-- UTF-8 encoding of one character, written with division and remainder
(identical to the bitwise form because the or-ed fields occupy disjoint
bit ranges). -/
def utf8Char (c : Char) : List Nat :=
  if c.toNat < 128 then [c.toNat]
  else if c.toNat < 2048 then [192 + c.toNat / 64, 128 + c.toNat % 64]
  else if c.toNat < 65536 then
    [224 + c.toNat / 4096, 128 + c.toNat / 64 % 64, 128 + c.toNat % 64]
  else
    [240 + c.toNat / 262144, 128 + c.toNat / 4096 % 64,
     128 + c.toNat / 64 % 64, 128 + c.toNat % 64]

/-- Embeds new TextEncoder().encode(s): the UTF-8 bytes of the string. -/
def utf8 (s : String) : List Nat := (s.data.map utf8Char).flatten

/-- Embeds timingSafeEqualStr (index.js lines 118-126): encode both
strings, compare lengths, then or together the xor of each byte pair and
test the accumulator against zero. -/
def timingSafeEqualStr (a b : String) : Bool :=
  if (utf8 a).length != (utf8 b).length then false
  else
    (List.zipWith (fun x y => x ^^^ y) (utf8 a) (utf8 b)).foldl (fun acc x => acc ||| x) 0 == 0

/-- Embeds verifyTokenAuth (lines 53-67): pass when no token is
configured; else check a Bearer authorization header with a constant-time
comparison of the trimmed remainder, else fall back to the x-webhook-token
header, else fail. -/
def verifyTokenAuth (req : WReq) (env : WEnv) : Bool :=
  if env.webhookToken = "" then true
  else
    let auth := req.authorization.getD ""
    if startsWithList "bearer ".data (asciiLowerList auth.data) then
      timingSafeEqualStr (String.mk (trimList (auth.data.drop 7))) env.webhookToken
    else
      match req.xWebhookToken with
      | some ht => if ht != "" then timingSafeEqualStr (String.mk (trimList ht.data)) env.webhookToken else false
      | none => false

/-- Embeds verifyHmacAuth (lines 69-92), with the HMAC-SHA256 hex digest
supplied as a function parameter (the digest itself is a crypto primitive
outside the embedding): pass when no secret is configured; else require a
signature header, strip an optional sha256= tag, normalise, and compare
in constant time against the digest of the body under the secret. -/
def verifyHmacAuth (hmacHex : String → String → String) (req : WReq) (env : WEnv) : Bool :=
  if env.webhookHmacSecret = "" then true
  else
    let sigHeader := match req.xSignature256 with
      | some s => if s != "" then some s else req.xHubSignature256
      | none => req.xHubSignature256
    match sigHeader with
    | none => false
    | some sig =>
      if sig = "" then false
      else
        let provided := if startsWithList "sha256=".data sig.data then sig.data.drop 7 else sig.data
        let providedHex := String.mk (asciiLowerList (trimList provided))
        timingSafeEqualStr (hmacHex env.webhookHmacSecret req.body) providedHex

/-- Embeds the worker fetch handler (lines 13-51) as the response status:
health probe, unknown path, method gate, declared-size gate, then both
auth checks; an authenticated request is accepted with 202 and a failed
authentication is rejected with 401. -/
def handleFetch (hmacHex : String → String → String) (env : WEnv) (req : WReq) : Nat :=
  if req.path = "/health" then 200
  else if req.path != "/fareharbor/webhook" then 404
  else if req.method != "POST" then 405
  else if req.contentLength != 0 && decide (1000000 < req.contentLength) then 413
  else if verifyTokenAuth req env && verifyHmacAuth hmacHex req env then 202
  else 401

/-- Hexadecimal digit test for the &#x...; entity pattern. -/
def isHexDigit (c : Char) : Bool :=
  ('0' ≤ c && c ≤ '9') || ('a' ≤ c && c ≤ 'f') || ('A' ≤ c && c ≤ 'F')

/-- Decimal digit test. -/
def isDecDigit (c : Char) : Bool := '0' ≤ c && c ≤ '9'

/-- Numeric value of a hexadecimal digit list. -/
def hexNum (l : List Char) : Nat :=
  l.foldl (fun a c =>
    a * 16 + (if '0' ≤ c && c ≤ '9' then c.toNat - 48
              else if 'a' ≤ c && c ≤ 'f' then c.toNat - 87 else c.toNat - 55)) 0

/-- Numeric value of a decimal digit list. -/
def decNum (l : List Char) : Nat := l.foldl (fun a c => a * 10 + (c.toNat - 48)) 0

/-- Embeds String.fromCodePoint inside the entity-decoding try/catch: an
out-of-range code point throws and the original matched text is kept.  A
surrogate code point, which a JS string can hold but a Lean character
cannot, is likewise kept as the original text. -/
def cpRepl (n : Nat) (orig : List Char) : List Char :=
  if n < 55296 || (57344 ≤ n && n < 1114112) then [Char.ofNat n] else orig

/-- Fuelled scanner for replaceAll of the hexadecimal entity pattern
(decodeHtmlEntities, lines 62-68): on failure to match at a position the
scan advances one character, as the regex engine does. -/
def hexEntPassAux : Nat → List Char → List Char
  | 0, l => l
  | _ + 1, [] => []
  | fuel + 1, c :: rest =>
    if c == '&' then
      match rest with
      | '#' :: 'x' :: r2 =>
        let digits := r2.takeWhile isHexDigit
        match digits, r2.dropWhile isHexDigit with
        | _ :: _, ';' :: r4 =>
          cpRepl (hexNum digits) ('&' :: '#' :: 'x' :: (digits ++ [';'])) ++ hexEntPassAux fuel r4
        | _, _ => c :: hexEntPassAux fuel rest
      | _ => c :: hexEntPassAux fuel rest
    else c :: hexEntPassAux fuel rest

/-- Fuelled scanner for replaceAll of the decimal entity pattern
(lines 69-75). -/
def decEntPassAux : Nat → List Char → List Char
  | 0, l => l
  | _ + 1, [] => []
  | fuel + 1, c :: rest =>
    if c == '&' then
      match rest with
      | '#' :: r2 =>
        let digits := r2.takeWhile isDecDigit
        match digits, r2.dropWhile isDecDigit with
        | _ :: _, ';' :: r4 =>
          cpRepl (decNum digits) ('&' :: '#' :: (digits ++ [';'])) ++ decEntPassAux fuel r4
        | _, _ => c :: decEntPassAux fuel rest
      | _ => c :: decEntPassAux fuel rest
    else c :: decEntPassAux fuel rest

/-- Fuelled scanner for replaceAll of a literal non-empty pattern. -/
def replaceSubAux (pat repl : List Char) : Nat → List Char → List Char
  | 0, l => l
  | _ + 1, [] => []
  | fuel + 1, c :: rest =>
    if startsWithList pat (c :: rest) then
      repl ++ replaceSubAux pat repl fuel ((c :: rest).drop pat.length)
    else c :: replaceSubAux pat repl fuel rest

/-- replaceAll of a literal pattern, fuelled by the input length. -/
def replaceSub (l pat repl : List Char) : List Char := replaceSubAux pat repl l.length l

/-- Embeds replaceAll(/\s+/g, " "): every whitespace character becomes a
space and adjacent whitespace collapses to one space. -/
def collapseWs : List Char → List Char
  | [] => []
  | [a] => [if jsSpace a then ' ' else a]
  | a :: b :: rest =>
    if jsSpace a && jsSpace b then collapseWs (b :: rest)
    else (if jsSpace a then ' ' else a) :: collapseWs (b :: rest)

/-- Embeds decodeHtmlEntities (lines 60-83): the eight sequential
replaceAll passes followed by trim, in source order. -/
def decodeHtmlEntities (s : String) : String :=
  let l1 := hexEntPassAux s.data.length s.data
  let l2 := decEntPassAux l1.length l1
  let l3 := replaceSub l2 "&amp;".data "&".data
  let l4 := replaceSub l3 "&lt;".data "<".data
  let l5 := replaceSub l4 "&gt;".data ">".data
  let l6 := replaceSub l5 "&quot;".data "\"".data
  let l7 := replaceSub l6 "&#39;".data "'".data
  String.mk (trimList (collapseWs l7))

/-- Fuelled scanner for replaceAll(/<[^>]+>/g, " ") (line 97): a tag is a
less-than sign, one or more non-greater-than characters, and a
greater-than sign; each tag becomes one space. -/
def stripTagsAux : Nat → List Char → List Char
  | 0, l => l
  | _ + 1, [] => []
  | fuel + 1, c :: rest =>
    if c == '<' then
      match rest.takeWhile (fun x => x != '>'), rest.dropWhile (fun x => x != '>') with
      | _ :: _, '>' :: r3 => ' ' :: stripTagsAux fuel r3
      | _, _ => c :: stripTagsAux fuel rest
    else c :: stripTagsAux fuel rest

/-- An item page as the static-tier title extractor reads it, represented
by the capture groups of its four regular expressions: the inner HTML of
the first h1 element, the content attributes of the og:title meta tags
(property= and name= variants, already the raw captured text), and the
inner text of the title element.  none means the regex found no match. -/
structure HtmlPage where
  h1 : Option String
  ogTitleProp : Option String
  ogTitleName : Option String
  titleTag : Option String
deriving DecidableEq, Repr

/-- Embeds extractMetaContent (lines 85-92) from its capture onward:
decode entities in the captured content. -/
def extractMetaContent (capture : Option String) : Option String :=
  capture.map decodeHtmlEntities

/-- JS truthiness of a possibly-missing string. -/
def strTruthy : Option String → Bool
  | some s => s != ""
  | none => false

/-- Embeds the JS or-else operator on possibly-missing strings. -/
def jsOrStr (a b : Option String) : Option String := if strTruthy a then a else b

/-- Embeds extractTitleFromHtml (lines 94-106) over the page captures,
keeping the source order of the branches: first the h1 element (tags
stripped, entities decoded), then the og:title meta content if truthy,
then the title element, else null.  Note the branch order of the code:
og:title is consulted before the title element, although the comment in
the source says the title element is preferred. -/
def extractTitleFromHtml (p : HtmlPage) : Option String :=
  match p.h1 with
  | some cap => some (decodeHtmlEntities (String.mk (stripTagsAux cap.data.length cap.data)))
  | none =>
    let og := jsOrStr (extractMetaContent p.ogTitleProp) (extractMetaContent p.ogTitleName)
    if strTruthy og then og
    else
      match p.titleTag with
      | some cap => some (decodeHtmlEntities cap)
      | none => none

/-- The composite-pair predicate of the dedup claim: the candidate has
this url and this start. -/
def sharesPair (u s : String) (e : Ev) : Bool := e.url == u && e.start == s

/-- Chronological (lexicographic) order on the (year, month, day, hour,
minute) fields of a timestamp. -/
def chronoLe (y mo d h mi y2 mo2 d2 h2 mi2 : Nat) : Prop :=
  y < y2 ∨ (y = y2 ∧ (mo < mo2 ∨ (mo = mo2 ∧ (d < d2 ∨ (d = d2 ∧
    (h < h2 ∨ (h = h2 ∧ mi ≤ mi2)))))))

/-- The character content of the zero-padded date string y-mo-d built by
parseDateLabelToYmd. -/
def ymdChars (y mo d : Nat) : List Char :=
  pad4 y ++ '-' :: (pad2 mo ++ '-' :: pad2 d)

/-- The character content of the zero-padded local timestamp built by
ymdAndTimeToIsoLocal over a date from parseDateLabelToYmd. -/
def isoChars (y mo d h mi : Nat) : List Char :=
  ymdChars y mo d ++ 'T' :: (pad2 h ++ ':' :: (pad2 mi ++ [':', '0', '0']))

/-- Sortedness by the start string, the order the final sort step uses. -/
def evLe (a b : Ev) : Prop := lexLe a.start.data b.start.data = true

/-- Gregorian leap-year test, used to state the "one day before today"
boundary of the date-filter claim. -/
def isLeap (y : Nat) : Bool := y % 4 == 0 && (y % 100 != 0 || y % 400 == 0)

/-- Days in a month of the Gregorian calendar. -/
def daysInMonth (y m : Nat) : Nat :=
  if m == 2 then (if isLeap y then 29 else 28)
  else if m == 4 || m == 6 || m == 9 || m == 11 then 30
  else 31

/-- The calendar day after y-m-d. -/
def nextDay (y m d : Nat) : Nat × Nat × Nat :=
  if d < daysInMonth y m then (y, m, d + 1)
  else if m < 12 then (y, m + 1, 1)
  else (y + 1, 1, 1)

/-- A well-formed calendar date within the four-digit-year range the
pipeline's zero-padded timestamps cover. -/
def validDate (y m d : Nat) : Prop :=
  1 ≤ m ∧ m ≤ 12 ∧ 1 ≤ d ∧ d ≤ daysInMonth y m ∧ y < 9999

theorem lexLe_refl (l : List Char) : lexLe l l = true := by
  induction l with
  | nil => rfl
  | cons a as ih => simp [lexLe, ih]

theorem lexLe_total (a b : List Char) : lexLe a b = true ∨ lexLe b a = true := by
  induction a generalizing b with
  | nil => left; rfl
  | cons x xs ih =>
    cases b with
    | nil => right; rfl
    | cons y ys =>
      rcases Nat.lt_trichotomy x.toNat y.toNat with h | h | h
      · left; simp [lexLe, h]
      · rcases ih ys with h2 | h2
        · left; simp [lexLe, h, h2]
        · right; simp [lexLe, h.symm, h2]
      · right; simp [lexLe, h]

theorem lexLe_cons_le {x y : Char} {xs ys : List Char}
    (h : lexLe (x :: xs) (y :: ys) = true) : x.toNat ≤ y.toNat := by
  simp only [lexLe] at h
  by_cases hxy : x.toNat < y.toNat
  · omega
  · by_cases hyx : y.toNat < x.toNat
    · simp [hxy, hyx] at h
    · omega

theorem lexLe_trans (a b c : List Char) (h1 : lexLe a b = true)
    (h2 : lexLe b c = true) : lexLe a c = true := by
  induction a generalizing b c with
  | nil => rfl
  | cons x xs ih =>
    cases b with
    | nil => simp [lexLe] at h1
    | cons y ys =>
      cases c with
      | nil => simp [lexLe] at h2
      | cons z zs =>
        have hxy := lexLe_cons_le h1
        have hyz := lexLe_cons_le h2
        rcases Nat.lt_trichotomy x.toNat z.toNat with hxz | hxz | hxz
        · simp [lexLe, hxz]
        · have hx : ¬ x.toNat < z.toNat := by omega
          have hz : ¬ z.toNat < x.toNat := by omega
          have exy : x.toNat = y.toNat := by omega
          have eyz : y.toNat = z.toNat := by omega
          simp only [lexLe, hx, hz, if_false]
          simp only [lexLe, exy, Nat.lt_irrefl, if_false] at h1
          simp only [lexLe, eyz, Nat.lt_irrefl, if_false] at h2
          exact ih ys zs h1 h2
        · exact absurd hxz (by omega)

theorem natStrAux_fuel (f1 : Nat) : ∀ f2 n, n < f1 → n < f2 →
    natStrAux f1 n = natStrAux f2 n := by
  induction f1 with
  | zero => intro f2 n h1 h2; omega
  | succ a ih =>
    intro f2 n h1 h2
    cases f2 with
    | zero => omega
    | succ b =>
      simp only [natStrAux]
      by_cases h10 : n < 10
      · simp [h10]
      · simp only [h10, if_false]
        rw [ih b (n / 10) (by omega) (by omega)]

theorem natStr_lt10 {n : Nat} (h : n < 10) : natStr n = [Nat.digitChar n] := by
  simp [natStr, natStrAux, h]

theorem natStr_ge10 {n : Nat} (h : 10 ≤ n) :
    natStr n = natStr (n / 10) ++ [Nat.digitChar (n % 10)] := by
  have h1 : ¬ n < 10 := by omega
  have step : natStr n = natStrAux n (n / 10) ++ [Nat.digitChar (n % 10)] := by
    simp [natStr, natStrAux, h1]
  rw [step, natStrAux_fuel n (n / 10 + 1) (n / 10) (by omega) (by omega)]
  rfl

theorem natStr2 {a : Nat} (h1 : 10 ≤ a) (h2 : a < 100) :
    natStr a = [Nat.digitChar (a / 10), Nat.digitChar (a % 10)] := by
  rw [natStr_ge10 h1, natStr_lt10 (show a / 10 < 10 by omega)]
  rfl

theorem natStr3 {a : Nat} (h1 : 100 ≤ a) (h2 : a < 1000) :
    natStr a = [Nat.digitChar (a / 100), Nat.digitChar (a / 10 % 10), Nat.digitChar (a % 10)] := by
  rw [natStr_ge10 (by omega), natStr2 (show 10 ≤ a / 10 by omega) (show a / 10 < 100 by omega)]
  have e1 : a / 10 / 10 = a / 100 := by omega
  rw [e1]
  rfl

theorem natStr4 {a : Nat} (h1 : 1000 ≤ a) (h2 : a < 10000) :
    natStr a = [Nat.digitChar (a / 1000), Nat.digitChar (a / 100 % 10),
      Nat.digitChar (a / 10 % 10), Nat.digitChar (a % 10)] := by
  rw [natStr_ge10 (by omega), natStr3 (show 100 ≤ a / 10 by omega) (show a / 10 < 1000 by omega)]
  have e1 : a / 10 / 100 = a / 1000 := by omega
  have e2 : a / 10 / 10 % 10 = a / 100 % 10 := by omega
  rw [e1, e2]
  rfl

theorem pad2_eq {a : Nat} (h : a < 100) :
    pad2 a = [Nat.digitChar (a / 10), Nat.digitChar (a % 10)] := by
  by_cases h10 : a < 10
  · have ha : a / 10 = 0 := by omega
    have hm : a % 10 = a := by omega
    rw [pad2, natStr_lt10 h10, ha, hm]
    rfl
  · rw [pad2, natStr2 (by omega) h]
    rfl

theorem pad4_eq {y : Nat} (h : y < 10000) :
    pad4 y = [Nat.digitChar (y / 1000), Nat.digitChar (y / 100 % 10),
      Nat.digitChar (y / 10 % 10), Nat.digitChar (y % 10)] := by
  by_cases h1 : y < 10
  · have d1 : y / 1000 = 0 := by omega
    have d2 : y / 100 % 10 = 0 := by omega
    have d3 : y / 10 % 10 = 0 := by omega
    have dm : y % 10 = y := by omega
    rw [pad4, natStr_lt10 h1, d1, d2, d3, dm]
    rfl
  · by_cases h2 : y < 100
    · have d1 : y / 1000 = 0 := by omega
      have d2 : y / 100 % 10 = 0 := by omega
      have e : y / 10 % 10 = y / 10 := by omega
      rw [pad4, natStr2 (by omega) h2, d1, d2, e]
      rfl
    · by_cases h3 : y < 1000
      · have d1 : y / 1000 = 0 := by omega
        have e : y / 100 % 10 = y / 100 := by omega
        rw [pad4, natStr3 (by omega) h3, d1, e]
        rfl
      · rw [pad4, natStr4 (by omega) h]
        rfl

theorem digitChar_toNat : ∀ d, d < 10 → (Nat.digitChar d).toNat = 48 + d := by decide

theorem lexLe_pad2 {a b : Nat} (ha : a < 100) (hb : b < 100) (r1 r2 : List Char) :
    lexLe (pad2 a ++ r1) (pad2 b ++ r2) =
      (if a < b then true else if b < a then false else lexLe r1 r2) := by
  rw [pad2_eq ha, pad2_eq hb]
  simp only [List.cons_append, List.nil_append, lexLe]
  rw [digitChar_toNat (a / 10) (by omega), digitChar_toNat (a % 10) (by omega),
      digitChar_toNat (b / 10) (by omega), digitChar_toNat (b % 10) (by omega)]
  split_ifs <;> first | rfl | omega

theorem lexLe_pad4 {a b : Nat} (ha : a < 10000) (hb : b < 10000) (r1 r2 : List Char) :
    lexLe (pad4 a ++ r1) (pad4 b ++ r2) =
      (if a < b then true else if b < a then false else lexLe r1 r2) := by
  rw [pad4_eq ha, pad4_eq hb]
  simp only [List.cons_append, List.nil_append, lexLe]
  rw [digitChar_toNat (a / 1000) (by omega), digitChar_toNat (a / 100 % 10) (by omega),
      digitChar_toNat (a / 10 % 10) (by omega), digitChar_toNat (a % 10) (by omega),
      digitChar_toNat (b / 1000) (by omega), digitChar_toNat (b / 100 % 10) (by omega),
      digitChar_toNat (b / 10 % 10) (by omega), digitChar_toNat (b % 10) (by omega)]
  split_ifs <;> first | rfl | omega

theorem lexLe_cons_same (c : Char) (r1 r2 : List Char) :
    lexLe (c :: r1) (c :: r2) = lexLe r1 r2 := by
  simp [lexLe]

theorem lexLe_ymdChars {y mo d y2 mo2 d2 : Nat} (hy : y < 10000) (hmo : mo < 100)
    (hd : d < 100) (hy2 : y2 < 10000) (hmo2 : mo2 < 100) (hd2 : d2 < 100) :
    lexLe (ymdChars y mo d) (ymdChars y2 mo2 d2) =
      ((y * 10000 + mo * 100 + d) ≤ (y2 * 10000 + mo2 * 100 + d2) : Bool) := by
  have last := lexLe_pad2 hd hd2 [] []
  rw [List.append_nil, List.append_nil] at last
  rw [ymdChars, ymdChars, lexLe_pad4 hy hy2, lexLe_cons_same,
    lexLe_pad2 hmo hmo2, lexLe_cons_same, last]
  split_ifs <;> first
    | exact (decide_eq_true (by omega)).symm
    | exact (decide_eq_false (by omega)).symm

set_option maxHeartbeats 2000000 in
theorem lexLe_isoChars {y mo d h mi y2 mo2 d2 h2 mi2 : Nat} (hy : y < 10000)
    (hmo : mo < 100) (hd : d < 100) (hh : h < 100) (hmi : mi < 100)
    (hy2 : y2 < 10000) (hmo2 : mo2 < 100) (hd2 : d2 < 100) (hh2 : h2 < 100)
    (hmi2 : mi2 < 100) :
    lexLe (isoChars y mo d h mi) (isoChars y2 mo2 d2 h2 mi2) =
      ((((y * 10000 + mo * 100 + d) * 10000 + h * 100 + mi) ≤
        ((y2 * 10000 + mo2 * 100 + d2) * 10000 + h2 * 100 + mi2)) : Bool) := by
  have last := lexLe_pad2 hmi hmi2 [':', '0', '0'] [':', '0', '0']
  have tail : lexLe [':', '0', '0'] [':', '0', '0'] = true := lexLe_refl _
  rw [tail] at last
  rw [isoChars, isoChars, ymdChars, ymdChars]
  simp only [List.append_assoc, List.cons_append]
  rw [lexLe_pad4 hy hy2, lexLe_cons_same, lexLe_pad2 hmo hmo2, lexLe_cons_same,
    lexLe_pad2 hd hd2, lexLe_cons_same, lexLe_pad2 hh hh2, lexLe_cons_same, last]
  split_ifs <;> first
    | exact (decide_eq_true (by omega)).symm
    | exact (decide_eq_false (by omega)).symm

theorem dedupKey_clean (e : Ev) : dedupKey (cleanEvent e) = dedupKey e := rfl

theorem dedupGo_filter (k : String) : ∀ (l acc : List Ev),
    (dedupGo l acc).filter (fun e => dedupKey e == k) =
      acc.filter (fun e => dedupKey e == k) ++
        (if acc.any (fun e => dedupKey e == k) then []
         else ((l.filter (fun e => dedupKey e == k)).take 1).map cleanEvent) := by
  intro l
  induction l with
  | nil => intro acc; by_cases h : acc.any (fun e => dedupKey e == k) <;> simp [dedupGo, h]
  | cons e rest ih =>
    intro acc
    simp only [dedupGo]
    by_cases hk : dedupKey e = k
    · by_cases hmem : acc.any (fun x => dedupKey x == dedupKey (cleanEvent e))
      · simp only [hmem, if_true, ih acc]
        have hacc : acc.any (fun e => dedupKey e == k) = true := by
          rw [dedupKey_clean, hk] at hmem; exact hmem
        simp [hacc]
      · have hacc : acc.any (fun e => dedupKey e == k) = false := by
          rw [dedupKey_clean, hk] at hmem
          exact Bool.not_eq_true _ ▸ (by simpa using hmem)
        have haccx : (acc ++ [cleanEvent e]).any (fun e => dedupKey e == k) = true := by
          simp [List.any_append, dedupKey_clean, hk]
        rw [if_neg hmem, ih (acc ++ [cleanEvent e]), haccx]
        simp [List.filter_append, List.filter_cons, hacc, dedupKey_clean, hk]
    · have hpred : (dedupKey e == k) = false := by simp [hk]
      have hpredc : (dedupKey (cleanEvent e) == k) = false := by
        rw [dedupKey_clean]; simp [hk]
      by_cases hmem : acc.any (fun x => dedupKey x == dedupKey (cleanEvent e))
      · simp only [hmem, if_true, ih acc, List.filter_cons, hpred]
        simp
      · have haccx : (acc ++ [cleanEvent e]).any (fun e => dedupKey e == k) =
            acc.any (fun e => dedupKey e == k) := by
          simp [List.any_append, hpredc]
        rw [if_neg hmem, ih (acc ++ [cleanEvent e]), haccx, List.filter_append]
        simp [List.filter_cons, hpred, hpredc]

theorem dedup_filter_key (l : List Ev) (k : String) :
    (dedupEvents l).filter (fun e => dedupKey e == k) =
      ((l.filter (fun e => dedupKey e == k)).take 1).map cleanEvent := by
  rw [dedupEvents, dedupGo_filter k l []]
  simp

theorem mem_dedupGo : ∀ (l acc : List Ev) (e : Ev), e ∈ dedupGo l acc →
    e ∈ acc ∨ ∃ x ∈ l, e = cleanEvent x := by
  intro l
  induction l with
  | nil => intro acc e h; left; exact h
  | cons x rest ih =>
    intro acc e h
    simp only [dedupGo] at h
    by_cases hmem : acc.any (fun y => dedupKey y == dedupKey (cleanEvent x))
    · rw [if_pos hmem] at h
      rcases ih acc e h with h2 | ⟨z, hz, he⟩
      · left; exact h2
      · right; exact ⟨z, List.mem_cons_of_mem _ hz, he⟩
    · rw [if_neg hmem] at h
      rcases ih (acc ++ [cleanEvent x]) e h with h2 | ⟨z, hz, he⟩
      · rcases List.mem_append.mp h2 with h3 | h3
        · left; exact h3
        · right; exact ⟨x, List.mem_cons_self _ _, by simpa using h3⟩
      · right; exact ⟨z, List.mem_cons_of_mem _ hz, he⟩

theorem mem_insertByStart (e x : Ev) (l : List Ev) :
    x ∈ insertByStart e l ↔ x = e ∨ x ∈ l := by
  induction l with
  | nil => simp [insertByStart]
  | cons y ys ih =>
    simp only [insertByStart]
    by_cases h : lexLe y.start.data e.start.data
    · rw [if_pos h]
      simp [ih]
      tauto
    · rw [if_neg h]
      simp

theorem pairwise_insertByStart (e : Ev) (l : List Ev) (h : List.Pairwise evLe l) :
    List.Pairwise evLe (insertByStart e l) := by
  induction l with
  | nil => simp [insertByStart, List.Pairwise]
  | cons x xs ih =>
    rcases List.pairwise_cons.mp h with ⟨hx, hxs⟩
    simp only [insertByStart]
    by_cases hle : lexLe x.start.data e.start.data
    · rw [if_pos hle]
      refine List.pairwise_cons.mpr ⟨?_, ih hxs⟩
      intro y hy
      rcases (mem_insertByStart e y xs).mp hy with rfl | hmem
      · exact hle
      · exact hx y hmem
    · rw [if_neg hle]
      have hel : evLe e x := by
        rcases lexLe_total x.start.data e.start.data with h1 | h1
        · exact absurd h1 hle
        · exact h1
      refine List.pairwise_cons.mpr ⟨?_, h⟩
      intro y hy
      rcases List.mem_cons.mp hy with rfl | hmem
      · exact hel
      · exact lexLe_trans _ _ _ hel (hx y hmem)

theorem sortByStart_sorted (l : List Ev) : List.Pairwise evLe (sortByStart l) := by
  induction l with
  | nil => simp [sortByStart, List.Pairwise]
  | cons x xs ih => exact pairwise_insertByStart x _ ih

theorem mem_sortByStart (l : List Ev) (x : Ev) : x ∈ sortByStart l ↔ x ∈ l := by
  induction l with
  | nil => simp [sortByStart]
  | cons y ys ih =>
    show x ∈ insertByStart y (sortByStart ys) ↔ _
    rw [mem_insertByStart]
    simp [ih]

theorem charToNat_inj {a b : Char} (h : a.toNat = b.toNat) : a = b := by
  rcases a with ⟨⟨⟨an, alt⟩⟩, ha⟩
  rcases b with ⟨⟨⟨bn, blt⟩⟩, hb⟩
  simp only [Char.toNat, UInt32.toNat] at h
  subst h
  rfl

theorem utf8Char_ne_nil (c : Char) : utf8Char c ≠ [] := by
  unfold utf8Char
  split_ifs <;> simp

theorem utf8Char_append_inj {c d : Char} {r s : List Nat}
    (h : utf8Char c ++ r = utf8Char d ++ s) : c = d ∧ r = s := by
  unfold utf8Char at h
  by_cases h1 : c.toNat < 128 <;> by_cases h2 : c.toNat < 2048 <;>
    by_cases h3 : c.toNat < 65536 <;>
    by_cases k1 : d.toNat < 128 <;> by_cases k2 : d.toNat < 2048 <;>
    by_cases k3 : d.toNat < 65536 <;>
    simp only [h1, h2, h3, k1, k2, k3, if_true, if_false, if_pos, if_neg,
      not_false_iff, List.cons_append, List.nil_append, List.cons.injEq] at h <;>
    first
      | (exfalso; omega)
      | (obtain ⟨hh1, hrest⟩ := h; exact ⟨charToNat_inj (by omega), hrest⟩)
      | (obtain ⟨hh1, hh2, hrest⟩ := h; exact ⟨charToNat_inj (by omega), hrest⟩)
      | (obtain ⟨hh1, hh2, hh3, hrest⟩ := h; exact ⟨charToNat_inj (by omega), hrest⟩)
      | (obtain ⟨hh1, hh2, hh3, hh4, hrest⟩ := h; exact ⟨charToNat_inj (by omega), hrest⟩)

theorem utf8_data_inj : ∀ a b : List Char,
    (a.map utf8Char).flatten = (b.map utf8Char).flatten → a = b := by
  intro a
  induction a with
  | nil =>
    intro b h
    cases b with
    | nil => rfl
    | cons d ds =>
      simp only [List.map_nil, List.flatten_nil, List.map_cons, List.flatten_cons] at h
      exact absurd (List.append_eq_nil.mp h.symm).1 (utf8Char_ne_nil d)
  | cons c cs ih =>
    intro b h
    cases b with
    | nil =>
      simp only [List.map_nil, List.flatten_nil, List.map_cons, List.flatten_cons] at h
      exact absurd (List.append_eq_nil.mp h).1 (utf8Char_ne_nil c)
    | cons d ds =>
      simp only [List.map_cons, List.flatten_cons] at h
      rcases utf8Char_append_inj h with ⟨hc, hrest⟩
      rw [hc, ih ds hrest]

theorem utf8_inj {a b : String} (h : utf8 a = utf8 b) : a = b :=
  String.ext (utf8_data_inj a.data b.data h)

theorem lor_eq_zero {a b : Nat} : a ||| b = 0 ↔ a = 0 ∧ b = 0 := by
  constructor
  · intro h
    constructor
    · apply Nat.eq_of_testBit_eq
      intro i
      have h2 := congrArg (fun n => Nat.testBit n i) h
      simp only [Nat.testBit_lor, Nat.zero_testBit, Bool.or_eq_false_iff] at h2
      simp [h2.1]
    · apply Nat.eq_of_testBit_eq
      intro i
      have h2 := congrArg (fun n => Nat.testBit n i) h
      simp only [Nat.testBit_lor, Nat.zero_testBit, Bool.or_eq_false_iff] at h2
      simp [h2.2]
  · rintro ⟨rfl, rfl⟩
    rfl

theorem foldl_lor_zero : ∀ (l : List Nat) (acc : Nat),
    (l.foldl (fun a x => a ||| x) acc = 0) ↔ (acc = 0 ∧ ∀ x ∈ l, x = 0) := by
  intro l
  induction l with
  | nil => intro acc; simp
  | cons x t ih =>
    intro acc
    rw [List.foldl_cons, ih (acc ||| x)]
    simp only [lor_eq_zero, List.mem_cons]
    constructor
    · rintro ⟨⟨ha, hx⟩, hall⟩
      exact ⟨ha, fun y hy => by rcases hy with rfl | hy; exact hx; exact hall y hy⟩
    · rintro ⟨ha, hall⟩
      exact ⟨⟨ha, hall x (Or.inl rfl)⟩, fun y hy => hall y (Or.inr hy)⟩

theorem zipWith_xor_zero : ∀ (aa bb : List Nat), aa.length = bb.length →
    ((∀ x ∈ List.zipWith (fun x y => x ^^^ y) aa bb, x = 0) ↔ aa = bb) := by
  intro aa
  induction aa with
  | nil =>
    intro bb h
    cases bb with
    | nil => simp
    | cons b bs => simp at h
  | cons a as ih =>
    intro bb h
    cases bb with
    | nil => simp at h
    | cons b bs =>
      simp only [List.zipWith_cons_cons, List.mem_cons, List.cons.injEq]
      rw [List.length_cons, List.length_cons] at h
      constructor
      · intro hall
        have ha : a ^^^ b = 0 := hall _ (Or.inl rfl)
        refine ⟨Nat.xor_eq_zero.mp ha, (ih bs (by omega)).mp ?_⟩
        intro x hx
        exact hall x (Or.inr hx)
      · rintro ⟨rfl, rfl⟩
        intro x hx
        rcases hx with rfl | hx2
        · exact Nat.xor_self a
        · have := (ih as (by omega)).mpr rfl
          exact this x hx2

theorem timingSafeEqualStr_iff (a b : String) :
    timingSafeEqualStr a b = true ↔ a = b := by
  unfold timingSafeEqualStr
  by_cases hlen : (utf8 a).length = (utf8 b).length
  · have hne : ((utf8 a).length != (utf8 b).length) = false := by
      simp [hlen]
    rw [hne, if_neg (by simp [hlen])]
    simp only [beq_iff_eq]
    rw [foldl_lor_zero]
    constructor
    · rintro ⟨-, hall⟩
      exact utf8_inj ((zipWith_xor_zero _ _ hlen).mp hall)
    · rintro rfl
      exact ⟨rfl, (zipWith_xor_zero _ _ hlen).mpr rfl⟩
  · rw [if_pos (by simp [hlen])]
    constructor
    · intro h; exact absurd h (by simp)
    · rintro rfl; exact absurd rfl hlen

theorem daysInMonth_le (y m : Nat) : daysInMonth y m ≤ 31 := by
  unfold daysInMonth
  split_ifs <;> omega

theorem nextDay_fields {y m d : Nat} (h : validDate y m d) :
    (nextDay y m d).1 < 10000 ∧ (nextDay y m d).2.1 < 100 ∧ (nextDay y m d).2.2 < 100 ∧
      y * 10000 + m * 100 + d <
        (nextDay y m d).1 * 10000 + (nextDay y m d).2.1 * 100 + (nextDay y m d).2.2 := by
  obtain ⟨h1, h2, h3, h4, h5⟩ := h
  have hdm := daysInMonth_le y m
  unfold nextDay
  split_ifs with c1 c2 <;> simp <;> omega

/-- C1: with the write flag set and the empty-write override unset, an
empty final sequence leaves the persisted document untouched and sets
exit code 2; with the override set, the document is replaced by the
empty array. -/
theorem c1_empty_write_guard (file : Option (List Ev)) :
    finishRun true false [] file = (file, 2) ∧ finishRun true true [] file = (some [], 0) := by
  constructor <;> rfl

/-- C2: evidence for the claim about static-tier title preference order.
The claim (and the comment inside extractTitleFromHtml) says the title
element is preferred over og:title when no heading exists, but the code
consults og:title first: on a page with no h1, a title element
"Page Title" and an og:title "OG Title", the extracted title is
"OG Title"; the title element is reached only when og:title is absent. -/
theorem c2_title_order_bug :
    extractTitleFromHtml ⟨none, some "OG Title", none, some "Page Title"⟩ = some "OG Title" ∧
    extractTitleFromHtml ⟨none, none, none, some "Page Title"⟩ = some "Page Title" := by
  constructor <;> decide

/-- General first-wins lemma for the dedup step: when the joined Map keys
identify (url, start) pairs on the candidate list, any two candidates
sharing a pair collapse to the first one encountered (cleaned). -/
theorem dedup_first_wins_of_key_inj (l : List Ev) (u s : String)
    (hinj : ∀ e ∈ l, ∀ f ∈ l, dedupKey e = dedupKey f → e.url = f.url ∧ e.start = f.start)
    (hdup : 2 ≤ (l.filter (sharesPair u s)).length) :
    (dedupEvents l).filter (sharesPair u s) =
      ((l.filter (sharesPair u s)).take 1).map cleanEvent := by
  have hne : l.filter (sharesPair u s) ≠ [] := by
    intro hh
    rw [hh] at hdup
    simp at hdup
  obtain ⟨e0, he0⟩ := List.exists_mem_of_ne_nil _ hne
  have he0l : e0 ∈ l := (List.mem_filter.mp he0).1
  have he0p := (List.mem_filter.mp he0).2
  have he0u : e0.url = u := by
    have := he0p
    simp [sharesPair] at this
    exact this.1
  have he0s : e0.start = s := by
    have := he0p
    simp [sharesPair] at this
    exact this.2
  have hk0 : dedupKey e0 = u ++ "::" ++ s := by
    rw [dedupKey, he0u, he0s]
  have hpred : ∀ x ∈ l, sharesPair u s x = (dedupKey x == u ++ "::" ++ s) := by
    intro x hx
    by_cases hp : sharesPair u s x = true
    · have hux : x.url = u ∧ x.start = s := by simpa [sharesPair] using hp
      rw [hp]
      symm
      rw [beq_iff_eq, dedupKey, hux.1, hux.2]
    · rw [Bool.not_eq_true] at hp
      rw [hp]
      symm
      rw [beq_eq_false_iff_ne]
      intro hkx
      have hpair := hinj x hx e0 he0l (hkx.trans hk0.symm)
      have : sharesPair u s x = true := by
        simp [sharesPair, hpair.1, hpair.2, he0u, he0s]
      rw [this] at hp
      exact Bool.true_eq_false.mp hp
  have hpredc : ∀ x ∈ dedupEvents l, sharesPair u s x = (dedupKey x == u ++ "::" ++ s) := by
    intro x hx
    rcases mem_dedupGo l [] x hx with h2 | ⟨z, hz, rfl⟩
    · simp at h2
    · have h3 := hpred z hz
      have e1 : sharesPair u s (cleanEvent z) = sharesPair u s z := rfl
      have e2 : dedupKey (cleanEvent z) = dedupKey z := rfl
      rw [e1, e2, h3]
  rw [List.filter_congr hpredc, List.filter_congr hpred, dedup_filter_key]

/-- The Map key url ++ "::" ++ start identifies the pair (url, start)
whenever the two start strings have the same length: equal-length
suffixes of equal concatenations coincide, whatever the urls contain. -/
theorem joinKey_inj {u1 s1 u2 s2 : String} (hlen : s1.length = s2.length)
    (h : u1 ++ "::" ++ s1 = u2 ++ "::" ++ s2) : u1 = u2 ∧ s1 = s2 := by
  have hd : (u1.data ++ "::".data) ++ s1.data = (u2.data ++ "::".data) ++ s2.data := by
    have h2 := congrArg String.data h
    simp only [String.data_append] at h2
    exact h2
  obtain ⟨h1, h2s⟩ := List.append_inj' hd
    (show s1.data.length = s2.data.length from hlen)
  obtain ⟨hu, -⟩ := List.append_inj' h1 rfl
  exact ⟨String.ext hu, String.ext h2s⟩

/-- C3: deduplication by the composite key (url, start).  On a scraped
candidate list — whose start fields are all the pipeline's fixed-width
19-character local timestamps, see ymdAndTimeToIsoLocal_length — any two
candidates sharing (url, start) collapse to a single output entry, the
first one encountered in scrape order (cleaned), and later duplicates
are discarded silently: equal start lengths make the Map key
url ++ "::" ++ start injective in the pair. -/
theorem c3_dedup_first_wins (l : List Ev) (u s : String)
    (hlen : ∀ e ∈ l, e.start.length = 19)
    (hdup : 2 ≤ (l.filter (sharesPair u s)).length) :
    (dedupEvents l).filter (sharesPair u s) =
      ((l.filter (sharesPair u s)).take 1).map cleanEvent := by
  refine dedup_first_wins_of_key_inj l u s ?_ hdup
  intro e he f hf hk
  unfold dedupKey at hk
  exact joinKey_inj (by rw [hlen e he, hlen f hf]) hk

theorem c3_dedup_first_wins_witness :
    (∀ e ∈ [(⟨"first", "2026-01-01T10:00:00", "e", "https://x.example/a", none⟩ : Ev),
            ⟨"second", "2026-01-01T10:00:00", "e2", "https://x.example/a", none⟩],
      e.start.length = 19) ∧
    2 ≤ (([(⟨"first", "2026-01-01T10:00:00", "e", "https://x.example/a", none⟩ : Ev),
           ⟨"second", "2026-01-01T10:00:00", "e2", "https://x.example/a", none⟩].filter
            (sharesPair "https://x.example/a" "2026-01-01T10:00:00")).length) ∧
    (dedupEvents
        [⟨"first", "2026-01-01T10:00:00", "e", "https://x.example/a", none⟩,
         ⟨"second", "2026-01-01T10:00:00", "e2", "https://x.example/a", none⟩]).filter
        (sharesPair "https://x.example/a" "2026-01-01T10:00:00") =
      (([(⟨"first", "2026-01-01T10:00:00", "e", "https://x.example/a", none⟩ : Ev),
         ⟨"second", "2026-01-01T10:00:00", "e2", "https://x.example/a", none⟩].filter
          (sharesPair "https://x.example/a" "2026-01-01T10:00:00")).take 1).map cleanEvent :=
  ⟨by decide, by decide,
   c3_dedup_first_wins
     [⟨"first", "2026-01-01T10:00:00", "e", "https://x.example/a", none⟩,
      ⟨"second", "2026-01-01T10:00:00", "e2", "https://x.example/a", none⟩]
     "https://x.example/a" "2026-01-01T10:00:00" (by decide) (by decide)⟩

/-- C4: at the date-filter stage (with the final sort applied), a
platform event whose end date (start date when end is absent) equals
todayYmd is kept; one whose end date is the calendar day right before
todayYmd is dropped; and every carried-forward foreign event is kept
whatever its dates are. -/
theorem c4_date_filter_boundary :
    (∀ (keep deduped : List Ev) (today : String) (e : Ev),
      today ≠ "" → e ∈ keep ++ deduped → isFareharborEvent e = true →
      endYmdOf e = today →
      e ∈ sortByStart ((keep ++ deduped).filter (assembleFilter keep today))) ∧
    (∀ (keep deduped : List Ev) (y m d ty tm td : Nat) (e : Ev),
      validDate y m d → e ∈ keep ++ deduped → isFareharborEvent e = true →
      endYmdOf e = String.mk (ymdChars y m d) → nextDay y m d = (ty, tm, td) →
      e ∉ sortByStart ((keep ++ deduped).filter
        (assembleFilter keep (String.mk (ymdChars ty tm td))))) ∧
    (∀ (existing deduped : List Ev) (today : String) (e : Ev),
      e ∈ foreignOf existing →
      e ∈ sortByStart ((foreignOf existing ++ deduped).filter
        (assembleFilter (foreignOf existing) today))) := by
  refine ⟨?_, ?_, ?_⟩
  · intro keep deduped today e htoday hmem hfh hymd
    have hpred : assembleFilter keep today e = true := by
      simp [assembleFilter, hfh, hymd, lexLe_refl, htoday]
    exact (mem_sortByStart _ _).mpr (List.mem_filter.mpr ⟨hmem, hpred⟩)
  · intro keep deduped y m d ty tm td e hval hmem hfh hymd hnext habs
    have hflds := nextDay_fields hval
    rw [hnext] at hflds
    obtain ⟨hty, htm, htd, hlt⟩ := hflds
    obtain ⟨h1m, h2m, h1d, h2d, h1y⟩ := hval
    have hdm := daysInMonth_le y m
    have hcmp : lexLe (ymdChars ty tm td) (ymdChars y m d) = false := by
      rw [lexLe_ymdChars hty htm htd (by omega) (by omega) (by omega)]
      exact decide_eq_false (by omega)
    have hpred : assembleFilter keep (String.mk (ymdChars ty tm td)) e = false := by
      simp [assembleFilter, hfh, hymd, hcmp]
    have hmem2 := (mem_sortByStart _ _).mp habs
    have := (List.mem_filter.mp hmem2).2
    rw [hpred] at this
    exact Bool.false_ne_true this
  · intro existing deduped today e hmem
    have hfh := (List.mem_filter.mp hmem).2
    have hlen : foreignOf existing ≠ [] := by
      intro hh
      rw [hh] at hmem
      simp at hmem
    have hpred : assembleFilter (foreignOf existing) today e = true := by
      have hl : (foreignOf existing).length ≠ 0 := by
        intro hh
        exact hlen (List.eq_nil_of_length_eq_zero hh)
      simp [assembleFilter, hl, hfh]
    exact (mem_sortByStart _ _).mpr
      (List.mem_filter.mpr ⟨List.mem_append_left _ hmem, hpred⟩)

theorem c4_date_filter_boundary_witness :
    (⟨"ev", "2026-01-15T10:00:00", "2026-01-15T20:00:00",
        "https://fareharbor.com/embeds/book/floridarama/items/5/", none⟩ : Ev) ∈
      sortByStart (([] ++
        [(⟨"ev", "2026-01-15T10:00:00", "2026-01-15T20:00:00",
          "https://fareharbor.com/embeds/book/floridarama/items/5/", none⟩ : Ev)]).filter
        (assembleFilter [] "2026-01-15")) ∧
    (⟨"ev", "2026-01-14T10:00:00", "2026-01-14T20:00:00",
        "https://fareharbor.com/embeds/book/floridarama/items/5/", none⟩ : Ev) ∉
      sortByStart (([] ++
        [(⟨"ev", "2026-01-14T10:00:00", "2026-01-14T20:00:00",
          "https://fareharbor.com/embeds/book/floridarama/items/5/", none⟩ : Ev)]).filter
        (assembleFilter [] (String.mk (ymdChars 2026 1 15)))) ∧
    (⟨"man", "2020-01-01T10:00:00", "2020-01-01T12:00:00",
        "https://example.com/gig", none⟩ : Ev) ∈
      sortByStart ((foreignOf
          [⟨"man", "2020-01-01T10:00:00", "2020-01-01T12:00:00",
            "https://example.com/gig", none⟩] ++ []).filter
        (assembleFilter (foreignOf
          [⟨"man", "2020-01-01T10:00:00", "2020-01-01T12:00:00",
            "https://example.com/gig", none⟩]) "2026-01-15")) :=
  ⟨c4_date_filter_boundary.1 [] _ "2026-01-15" _ (by decide) (by decide) (by decide)
     (by decide),
   c4_date_filter_boundary.2.1 [] _ 2026 1 14 2026 1 15 _
     (by exact ⟨by decide, by decide, by decide, by decide, by decide⟩) (by decide)
     (by decide) (by decide) (by decide),
   c4_date_filter_boundary.2.2 _ [] "2026-01-15" _ (by decide)⟩

/-- C5: in merge mode, every foreign persisted event is carried into the
output unconditionally; previously persisted platform events have no
effect on the output (the run depends on the persisted sequence only
through its foreign part); and in the one-foreign, one-platform,
one-fresh-candidate scenario the output is exactly the foreign event plus
the cleaned new platform event, sorted by start. -/
theorem c5_merge_mode :
    (∀ (existing scraped : List Ev) (today : String) (e : Ev),
      isFareharborEvent e = false → e ∈ existing →
      e ∈ mergeRun true existing scraped today) ∧
    (∀ (existing scraped : List Ev) (today : String),
      mergeRun true existing scraped today =
        mergeRun true (foreignOf existing) scraped today) ∧
    (∀ (f p n : Ev) (today : String),
      isFareharborEvent f = false → isFareharborEvent p = true →
      isFareharborEvent n = true → endYmdOf n ≠ "" →
      lexLe today.data (endYmdOf n).data = true →
      mergeRun true [f, p] [n] today = sortByStart [f, cleanEvent n]) := by
  refine ⟨?_, ?_, ?_⟩
  · intro existing scraped today e hfh hmem
    have hkeep : e ∈ foreignOf existing := by
      rw [foreignOf, List.mem_filter]
      exact ⟨hmem, by simp [hfh]⟩
    have hlen : (foreignOf existing).length ≠ 0 := by
      intro hh
      rw [List.eq_nil_of_length_eq_zero hh] at hkeep
      simp at hkeep
    have hpred : assembleFilter (foreignOf existing) today e = true := by
      simp [assembleFilter, hlen, hfh]
    rw [mergeRun]
    simp only [if_true]
    exact (mem_sortByStart _ _).mpr
      (List.mem_filter.mpr ⟨List.mem_append_left _ hkeep, hpred⟩)
  · intro existing scraped today
    rw [mergeRun, mergeRun]
    have : foreignOf (foreignOf existing) = foreignOf existing := by
      rw [foreignOf, foreignOf, List.filter_filter]
      simp
    rw [if_pos rfl, if_pos rfl, this]
  · intro f p n today hf hp hn hny hnd
    have hkeep : foreignOf [f, p] = [f] := by
      simp [foreignOf, List.filter, hf, hp]
    have hded : dedupEvents [n] = [cleanEvent n] := by
      simp [dedupEvents, dedupGo]
    have hpredf : assembleFilter [f] today f = true := by
      simp [assembleFilter, hf]
    have hfhc : isFareharborEvent (cleanEvent n) = isFareharborEvent n := rfl
    have hymdc : endYmdOf (cleanEvent n) = endYmdOf n := rfl
    have hpredn : assembleFilter [f] today (cleanEvent n) = true := by
      simp [assembleFilter, hfhc, hn, hymdc, hny, hnd]
    rw [mergeRun, if_pos rfl, hkeep, hded]
    simp only [List.cons_append, List.nil_append]
    rw [List.filter_cons_of_pos hpredf, List.filter_cons_of_pos hpredn,
      List.filter_nil]

theorem c5_merge_mode_witness :
    (⟨"Art Walk", "2026-02-01T10:00:00", "2026-02-01T12:00:00",
        "https://example.com/artwalk", none⟩ : Ev) ∈
      mergeRun true
        [⟨"Art Walk", "2026-02-01T10:00:00", "2026-02-01T12:00:00",
          "https://example.com/artwalk", none⟩,
         ⟨"Old Tour", "2026-01-01T18:00:00", "2026-01-01T20:00:00",
          "https://fareharbor.com/embeds/book/floridarama/items/1/", none⟩]
        [⟨"New Tour", "2026-01-20T18:00:00", "2026-01-20T20:00:00",
          "https://fareharbor.com/embeds/book/floridarama/items/2/availability/9/book/",
          none⟩] "2026-01-15" ∧
    mergeRun true
        [⟨"Art Walk", "2026-02-01T10:00:00", "2026-02-01T12:00:00",
          "https://example.com/artwalk", none⟩,
         ⟨"Old Tour", "2026-01-01T18:00:00", "2026-01-01T20:00:00",
          "https://fareharbor.com/embeds/book/floridarama/items/1/", none⟩]
        [⟨"New Tour", "2026-01-20T18:00:00", "2026-01-20T20:00:00",
          "https://fareharbor.com/embeds/book/floridarama/items/2/availability/9/book/",
          none⟩] "2026-01-15" =
      mergeRun true
        (foreignOf
          [⟨"Art Walk", "2026-02-01T10:00:00", "2026-02-01T12:00:00",
            "https://example.com/artwalk", none⟩,
           ⟨"Old Tour", "2026-01-01T18:00:00", "2026-01-01T20:00:00",
            "https://fareharbor.com/embeds/book/floridarama/items/1/", none⟩])
        [⟨"New Tour", "2026-01-20T18:00:00", "2026-01-20T20:00:00",
          "https://fareharbor.com/embeds/book/floridarama/items/2/availability/9/book/",
          none⟩] "2026-01-15" ∧
    mergeRun true
        [⟨"Art Walk", "2026-02-01T10:00:00", "2026-02-01T12:00:00",
          "https://example.com/artwalk", none⟩,
         ⟨"Old Tour", "2026-01-01T18:00:00", "2026-01-01T20:00:00",
          "https://fareharbor.com/embeds/book/floridarama/items/1/", none⟩]
        [⟨"New Tour", "2026-01-20T18:00:00", "2026-01-20T20:00:00",
          "https://fareharbor.com/embeds/book/floridarama/items/2/availability/9/book/",
          none⟩] "2026-01-15" =
      sortByStart
        [⟨"Art Walk", "2026-02-01T10:00:00", "2026-02-01T12:00:00",
          "https://example.com/artwalk", none⟩,
         cleanEvent
          ⟨"New Tour", "2026-01-20T18:00:00", "2026-01-20T20:00:00",
           "https://fareharbor.com/embeds/book/floridarama/items/2/availability/9/book/",
           none⟩] :=
  ⟨c5_merge_mode.1 _ _ "2026-01-15" _ (by decide) (by decide),
   c5_merge_mode.2.1 _ _ "2026-01-15",
   c5_merge_mode.2.2 _ _ _ "2026-01-15" (by decide) (by decide) (by decide) (by decide)
     (by decide)⟩

/-- C6: meridiem inference on the captured time range.  When neither side
carries a valid AM/PM marker the match is rejected; when exactly one side
does, the other inherits it; and the "6 - 10PM" capture yields start
18:00 and end 22:00 after 24-hour conversion. -/
theorem c6_meridiem_inference :
    (∀ mt : RangeMatch, normAp mt.start.ap = none → normAp mt.endT.ap = none →
      parseEventTimeRange (some mt) = none) ∧
    (∀ (mt : RangeMatch) (ap : String),
      normAp mt.start.ap = none → normAp mt.endT.ap = some ap →
      parseEventTimeRange (some mt) =
        some ⟨⟨mt.start.h, mt.start.m.getD 0, ap⟩, ⟨mt.endT.h, mt.endT.m.getD 0, ap⟩⟩) ∧
    (∀ (mt : RangeMatch) (ap : String),
      normAp mt.start.ap = some ap → normAp mt.endT.ap = none →
      parseEventTimeRange (some mt) =
        some ⟨⟨mt.start.h, mt.start.m.getD 0, ap⟩, ⟨mt.endT.h, mt.endT.m.getD 0, ap⟩⟩) ∧
    (parseEventTimeRange (some ⟨⟨6, none, none⟩, ⟨10, none, some "PM"⟩⟩) =
        some ⟨⟨6, 0, "PM"⟩, ⟨10, 0, "PM"⟩⟩ ∧
      to24Hour ⟨6, 0, "PM"⟩ = (18, 0) ∧ to24Hour ⟨10, 0, "PM"⟩ = (22, 0)) := by
  refine ⟨?_, ?_, ?_, by decide, by decide, by decide⟩
  · intro mt h1 h2
    simp [parseEventTimeRange, h1, h2]
  · intro mt ap h1 h2
    simp [parseEventTimeRange, h1, h2]
  · intro mt ap h1 h2
    simp [parseEventTimeRange, h1, h2]

theorem c6_meridiem_inference_witness :
    parseEventTimeRange (some ⟨⟨7, some 15, some "A.M."⟩, ⟨9, none, none⟩⟩) =
        some ⟨⟨7, 15, "AM"⟩, ⟨9, 0, "AM"⟩⟩ ∧
      parseEventTimeRange (some ⟨⟨6, none, none⟩, ⟨10, none, some "PM"⟩⟩) =
        some ⟨⟨6, 0, "PM"⟩, ⟨10, 0, "PM"⟩⟩ ∧
      parseEventTimeRange (some ⟨⟨6, none, none⟩, ⟨10, none, none⟩⟩) = none :=
  ⟨c6_meridiem_inference.2.2.1 ⟨⟨7, some 15, some "A.M."⟩, ⟨9, none, none⟩⟩ "AM"
     (by decide) (by decide),
   c6_meridiem_inference.2.1 ⟨⟨6, none, none⟩, ⟨10, none, some "PM"⟩⟩ "PM"
     (by decide) (by decide),
   c6_meridiem_inference.1 ⟨⟨6, none, none⟩, ⟨10, none, none⟩⟩ (by decide) (by decide)⟩

/-- C7: the duration fallback adds the duration to the start modulo 24
hours and the assembler stamps both ends of the window onto the same
calendar date: "6:00 PM" plus "2 Hours" ends 20:00, "11:30 PM" plus
"2 Hours" ends 01:30 on the same date, so the end timestamp sorts before
the start timestamp and start <= end is not guaranteed.  The last part
states the wrap in general: the end time in minutes is the start time
plus the rounded duration, modulo 24*60. -/
theorem c7_duration_wrap :
    (parseStartTimeAndDuration (some ⟨6, some 0, some "PM"⟩) (some ⟨2, 1⟩) none =
      some ⟨⟨6, 0, "PM"⟩, ⟨8, 0, "PM"⟩⟩) ∧
    (ymdAndTimeToIsoLocal "2026-01-31" (to24Hour ⟨8, 0, "PM"⟩).1 (to24Hour ⟨8, 0, "PM"⟩).2 =
      "2026-01-31T20:00:00") ∧
    (parseStartTimeAndDuration (some ⟨11, some 30, some "PM"⟩) (some ⟨2, 1⟩) none =
      some ⟨⟨11, 30, "PM"⟩, ⟨1, 30, "AM"⟩⟩) ∧
    (ymdAndTimeToIsoLocal "2026-01-31" (to24Hour ⟨11, 30, "PM"⟩).1
        (to24Hour ⟨11, 30, "PM"⟩).2 = "2026-01-31T23:30:00") ∧
    (ymdAndTimeToIsoLocal "2026-01-31" (to24Hour ⟨1, 30, "AM"⟩).1
        (to24Hour ⟨1, 30, "AM"⟩).2 = "2026-01-31T01:30:00") ∧
    (lexLe "2026-01-31T01:30:00".data "2026-01-31T23:30:00".data = true ∧
      ("2026-01-31T01:30:00" : String) ≠ "2026-01-31T23:30:00") ∧
    (∀ (s : ClockSide) (hq : JsDec) (mq : Option Nat) (r : TimeRange),
      parseStartTimeAndDuration (some s) (some hq) mq = some r →
      (to24Hour r.endT).1 * 60 + (to24Hour r.endT).2 =
        ((to24Hour r.start).1 * 60 + (to24Hour r.start).2 + roundHours60 hq + mq.getD 0)
          % (24 * 60)) := by
  refine ⟨by decide, by decide, by decide, by decide, by decide, ⟨by decide, by decide⟩, ?_⟩
  intro s hq mq r h
  simp only [parseStartTimeAndDuration] at h
  cases hap : normAp s.ap with
  | none => rw [hap] at h; exact absurd h (by simp)
  | some sap =>
    rw [hap] at h
    simp only at h
    by_cases hz : roundHours60 hq + mq.getD 0 = 0
    · rw [if_pos hz] at h
      exact absurd h (by simp)
    · rw [if_neg hz] at h
      have hr := (Option.some.injEq _ _).mp h
      subst hr
      simp only [to24Hour]
      split_ifs <;> first | omega | (exfalso; simp_all)

theorem c7_duration_wrap_witness :
    parseStartTimeAndDuration (some ⟨9, some 0, some "PM"⟩) (some ⟨5, 1⟩) (some 30) =
        some ⟨⟨9, 0, "PM"⟩, ⟨2, 30, "AM"⟩⟩ ∧
      (to24Hour (⟨2, 30, "AM"⟩ : Tw)).1 * 60 + (to24Hour (⟨2, 30, "AM"⟩ : Tw)).2 =
        ((to24Hour (⟨9, 0, "PM"⟩ : Tw)).1 * 60 + (to24Hour (⟨9, 0, "PM"⟩ : Tw)).2 +
          roundHours60 ⟨5, 1⟩ + (some 30).getD 0) % (24 * 60) :=
  ⟨by decide,
   c7_duration_wrap.2.2.2.2.2.2 ⟨9, some 0, some "PM"⟩ ⟨5, 1⟩ (some 30)
     ⟨⟨9, 0, "PM"⟩, ⟨2, 30, "AM"⟩⟩ (by decide)⟩

theorem indexOf?_lt_length {α : Type} [BEq α] (l : List α) (a : α) (i : Nat)
    (h : l.indexOf? a = some i) : i < l.length := by
  rw [List.indexOf?] at h
  exact (List.findIdx?_eq_some_iff_findIdx_eq.mp h).1

/-- Every start timestamp the pipeline itself builds is exactly 19
characters long: a date string from parseDateLabelToYmd (whose captures
are at most 4-digit years and 2-digit days) combined with two-digit time
fields always yields the fixed-width YYYY-MM-DDTHH:MM:00 shape.  This is
the fact that grounds the equal-length hypothesis of the dedup claim. -/
theorem ymdAndTimeToIsoLocal_length (monthName ymd : String) (day year h mi : Nat)
    (hp : parseDateLabelToYmd monthName day year = some ymd)
    (hday : day < 100) (hyear : year < 10000) (hh : h < 100) (hmi : mi < 100) :
    (ymdAndTimeToIsoLocal ymd h mi).length = 19 := by
  rw [parseDateLabelToYmd] at hp
  cases hidx : monthNames.indexOf? (String.mk (asciiLowerList monthName.data)) with
  | none => rw [hidx] at hp; exact absurd hp (by simp)
  | some monthIndex =>
    rw [hidx] at hp
    simp only [Option.some.injEq] at hp
    have hlt : monthIndex < 12 := indexOf?_lt_length _ _ _ hidx
    have hymd : ymd.data = pad4 year ++ '-' :: (pad2 (monthIndex + 1) ++ '-' :: pad2 day) := by
      rw [← hp]
    have hdata : (ymdAndTimeToIsoLocal ymd h mi).data =
        ymd.data ++ 'T' :: (pad2 h ++ ':' :: (pad2 mi ++ [':', '0', '0'])) := rfl
    show (ymdAndTimeToIsoLocal ymd h mi).data.length = 19
    rw [hdata, hymd, pad4_eq hyear, pad2_eq (show monthIndex + 1 < 100 by omega),
      pad2_eq hday, pad2_eq hh, pad2_eq hmi]
    simp [List.length_append]

/-- C8: the assembler output is sorted ascending by the start string under
code-point comparison; every timestamp the pipeline itself builds from a
parsed date label has the fixed-width zero-padded shape
YYYY-MM-DDTHH:MM:00 (with a month between 01 and 12); the 12-hour
conversion sends 12 AM to hour 00 and 12 PM to hour 12; and on
zero-padded timestamps the string order coincides exactly with the
chronological (field-lexicographic) order. -/
theorem c8_sort_and_format :
    (∀ (mergeExisting : Bool) (existing scraped : List Ev) (today : String),
      List.Pairwise evLe (mergeRun mergeExisting existing scraped today)) ∧
    (∀ (monthName ymd : String) (day year h mi : Nat),
      parseDateLabelToYmd monthName day year = some ymd →
      ∃ mo, 1 ≤ mo ∧ mo ≤ 12 ∧
        (ymdAndTimeToIsoLocal ymd h mi).data = isoChars year mo day h mi) ∧
    (∀ m : Nat, to24Hour ⟨12, m, "AM"⟩ = (0, m) ∧ to24Hour ⟨12, m, "PM"⟩ = (12, m)) ∧
    (∀ y mo d h mi y2 mo2 d2 h2 mi2 : Nat,
      y < 10000 → mo < 100 → d < 100 → h < 100 → mi < 100 →
      y2 < 10000 → mo2 < 100 → d2 < 100 → h2 < 100 → mi2 < 100 →
      (lexLe (isoChars y mo d h mi) (isoChars y2 mo2 d2 h2 mi2) = true ↔
        chronoLe y mo d h mi y2 mo2 d2 h2 mi2)) := by
  refine ⟨?_, ?_, ?_, ?_⟩
  · intro mergeExisting existing scraped today
    exact sortByStart_sorted _
  · intro monthName ymd day year h mi hp
    rw [parseDateLabelToYmd] at hp
    cases hidx : monthNames.indexOf? (String.mk (asciiLowerList monthName.data)) with
    | none => rw [hidx] at hp; exact absurd hp (by simp)
    | some monthIndex =>
      rw [hidx] at hp
      simp only [Option.some.injEq] at hp
      have hlt : monthIndex < 12 := indexOf?_lt_length _ _ _ hidx
      refine ⟨monthIndex + 1, by omega, by omega, ?_⟩
      rw [← hp]
      rfl
  · intro m
    exact ⟨by simp [to24Hour], by simp [to24Hour]⟩
  · intro y mo d t mi y2 mo2 d2 t2 mi2 hy hmo hd hht hmi hy2 hmo2 hd2 hht2 hmi2
    rw [lexLe_isoChars hy hmo hd hht hmi hy2 hmo2 hd2 hht2 hmi2]
    rw [decide_eq_true_eq, chronoLe]
    constructor
    · intro hk
      by_cases hb1 : y < y2
      · exact Or.inl hb1
      · refine Or.inr ⟨by omega, ?_⟩
        by_cases hb2 : mo < mo2
        · exact Or.inl hb2
        · refine Or.inr ⟨by omega, ?_⟩
          by_cases hb3 : d < d2
          · exact Or.inl hb3
          · refine Or.inr ⟨by omega, ?_⟩
            by_cases hb4 : t < t2
            · exact Or.inl hb4
            · exact Or.inr ⟨by omega, by omega⟩
    · intro hc
      rcases hc with hb1 | ⟨rfl, hc2⟩
      · omega
      rcases hc2 with hb2 | ⟨rfl, hc3⟩
      · omega
      rcases hc3 with hb3 | ⟨rfl, hc4⟩
      · omega
      rcases hc4 with hb4 | ⟨rfl, hb5⟩
      · omega
      · omega

theorem c8_sort_and_format_witness :
    List.Pairwise evLe (mergeRun false []
      [⟨"a", "2026-01-31T18:00:00", "2026-01-31T20:00:00",
        "https://fareharbor.com/embeds/book/floridarama/items/9/", none⟩] "2026-01-15") ∧
    (∃ mo, 1 ≤ mo ∧ mo ≤ 12 ∧
      (ymdAndTimeToIsoLocal "2026-01-31" 18 0).data = isoChars 2026 mo 31 18 0) ∧
    to24Hour ⟨12, 30, "AM"⟩ = (0, 30) ∧
    (lexLe (isoChars 2026 1 31 18 0) (isoChars 2026 2 1 9 5) = true ↔
      chronoLe 2026 1 31 18 0 2026 2 1 9 5) :=
  ⟨c8_sort_and_format.1 false [] _ "2026-01-15",
   c8_sort_and_format.2.1 "January" "2026-01-31" 31 2026 18 0 (by decide),
   (c8_sort_and_format.2.2.1 30).1,
   c8_sort_and_format.2.2.2 2026 1 31 18 0 2026 2 1 9 5 (by omega) (by omega) (by omega)
     (by omega) (by omega) (by omega) (by omega) (by omega) (by omega) (by omega)⟩

theorem startsWithList_append (p r : List Char) : startsWithList p (p ++ r) = true := by
  induction p with
  | nil => rfl
  | cons c cs ih => simp [startsWithList, ih]

theorem handleFetch_auth (hmacHex : String → String → String) (env : WEnv) (req : WReq)
    (hpath : req.path = "/fareharbor/webhook") (hmeth : req.method = "POST")
    (hsize : req.contentLength ≤ 1000000) :
    handleFetch hmacHex env req =
      if verifyTokenAuth req env && verifyHmacAuth hmacHex req env then 202 else 401 := by
  unfold handleFetch
  rw [hpath, hmeth]
  rw [if_neg (by decide), if_neg (by decide), if_neg (by decide),
    if_neg (show ¬((req.contentLength != 0 &&
        decide (1000000 < req.contentLength)) = true) from ?_)]
  intro hcond
  rw [Bool.and_eq_true] at hcond
  exact absurd (of_decide_eq_true hcond.2) (by omega)

theorem verifyTokenAuth_bearer (env : WEnv) (req : WReq) (t : String)
    (htok : env.webhookToken ≠ "") (hauth : req.authorization = some ("Bearer " ++ t))
    (htrim : trimList t.data = t.data) :
    verifyTokenAuth req env = timingSafeEqualStr t env.webhookToken := by
  unfold verifyTokenAuth
  rw [if_neg htok, hauth]
  have hlowA : asciiLowerList "Bearer ".data = "bearer ".data := by decide
  have hstart : startsWithList "bearer ".data
      (asciiLowerList ("Bearer " ++ t).data) = true := by
    rw [String.data_append, asciiLowerList, List.map_append]
    rw [show List.map asciiLower "Bearer ".data = "bearer ".data from hlowA]
    exact startsWithList_append _ _
  have hdrop : ("Bearer " ++ t).data.drop 7 = t.data := by
    rw [String.data_append]
    rfl
  simp only [Option.getD_some]
  rw [if_pos hstart, hdrop, htrim]

/-- C9: with a token configured and no HMAC secret configured, a POST to
the webhook path of acceptable size carrying the correct bearer token is
accepted with status 202; a request carrying a wrong bearer token is
rejected with status 401 whatever its body (and whether or not an HMAC
secret is configured, since the token check fails first).  The token
values are assumed trim-stable, as the worker trims the header token
before the constant-time comparison. -/
theorem c9_webhook_auth :
    (∀ (hmacHex : String → String → String) (env : WEnv) (req : WReq),
      env.webhookToken ≠ "" → env.webhookHmacSecret = "" →
      req.path = "/fareharbor/webhook" → req.method = "POST" →
      req.contentLength ≤ 1000000 →
      req.authorization = some ("Bearer " ++ env.webhookToken) →
      trimList env.webhookToken.data = env.webhookToken.data →
      handleFetch hmacHex env req = 202) ∧
    (∀ (hmacHex : String → String → String) (env : WEnv) (req : WReq) (t : String),
      env.webhookToken ≠ "" →
      req.path = "/fareharbor/webhook" → req.method = "POST" →
      req.contentLength ≤ 1000000 →
      req.authorization = some ("Bearer " ++ t) →
      trimList t.data = t.data → t ≠ env.webhookToken →
      handleFetch hmacHex env req = 401) := by
  constructor
  · intro hmacHex env req htok hsec hpath hmeth hsize hauth htrim
    rw [handleFetch_auth hmacHex env req hpath hmeth hsize]
    rw [verifyTokenAuth_bearer env req env.webhookToken htok hauth htrim]
    rw [(timingSafeEqualStr_iff _ _).mpr rfl]
    rw [verifyHmacAuth, if_pos hsec]
    rfl
  · intro hmacHex env req t htok hpath hmeth hsize hauth htrim hne
    rw [handleFetch_auth hmacHex env req hpath hmeth hsize]
    rw [verifyTokenAuth_bearer env req t htok hauth htrim]
    have hfalse : timingSafeEqualStr t env.webhookToken = false := by
      rcases Bool.eq_false_or_eq_true (timingSafeEqualStr t env.webhookToken) with h | h
      · exact absurd ((timingSafeEqualStr_iff _ _).mp h) hne
      · exact h
    rw [hfalse, Bool.false_and, if_neg (by simp)]

theorem c9_webhook_auth_witness :
    handleFetch (fun _ _ => "") ⟨"sekret", ""⟩
        ⟨"POST", "/fareharbor/webhook", 120, some ("Bearer " ++ "sekret"), none, none,
         none, "payload"⟩ = 202 ∧
      handleFetch (fun _ _ => "") ⟨"sekret", ""⟩
        ⟨"POST", "/fareharbor/webhook", 120, some ("Bearer " ++ "wrong"), none, none,
         none, "any body at all"⟩ = 401 :=
  ⟨c9_webhook_auth.1 (fun _ _ => "") ⟨"sekret", ""⟩
     ⟨"POST", "/fareharbor/webhook", 120, some ("Bearer " ++ "sekret"), none, none,
      none, "payload"⟩
     (by decide) rfl rfl rfl (by decide) rfl (by decide),
   c9_webhook_auth.2 (fun _ _ => "") ⟨"sekret", ""⟩
     ⟨"POST", "/fareharbor/webhook", 120, some ("Bearer " ++ "wrong"), none, none,
      none, "any body at all"⟩ "wrong"
     (by decide) rfl rfl (by decide) rfl (by decide) (by decide)⟩

/-- C10: on the webhook path, a non-POST request is answered 405, and a
POST whose declared body size exceeds the 1MB limit is answered 413 for
every configuration and every header and body value, so the rejection
happens before any authentication input is consulted. -/
theorem c10_request_gating :
    (∀ (hmacHex : String → String → String) (env : WEnv) (req : WReq),
      req.path = "/fareharbor/webhook" → req.method ≠ "POST" →
      handleFetch hmacHex env req = 405) ∧
    (∀ (hmacHex : String → String → String) (env : WEnv) (req : WReq),
      req.path = "/fareharbor/webhook" → req.method = "POST" →
      1000000 < req.contentLength →
      handleFetch hmacHex env req = 413) := by
  constructor
  · intro hmacHex env req hpath hmeth
    unfold handleFetch
    rw [hpath]
    rw [if_neg (by decide), if_neg (by decide),
      if_pos (show (req.method != "POST") = true by simpa using hmeth)]
  · intro hmacHex env req hpath hmeth hsize
    unfold handleFetch
    rw [hpath, hmeth]
    rw [if_neg (by decide), if_neg (by decide), if_neg (by decide),
      if_pos (show (req.contentLength != 0 &&
          decide (1000000 < req.contentLength)) = true from ?_)]
    rw [Bool.and_eq_true]
    exact ⟨by simpa using (by omega : req.contentLength ≠ 0), decide_eq_true hsize⟩

theorem c10_request_gating_witness :
    handleFetch (fun _ _ => "") ⟨"sekret", "hmac"⟩
        ⟨"GET", "/fareharbor/webhook", 120, some ("Bearer " ++ "sekret"), none, none,
         none, "b"⟩ = 405 ∧
      handleFetch (fun _ _ => "") ⟨"sekret", "hmac"⟩
        ⟨"POST", "/fareharbor/webhook", 2000000, some ("Bearer " ++ "sekret"), none,
         none, none, "big"⟩ = 413 :=
  ⟨c10_request_gating.1 (fun _ _ => "") ⟨"sekret", "hmac"⟩
     ⟨"GET", "/fareharbor/webhook", 120, some ("Bearer " ++ "sekret"), none, none,
      none, "b"⟩ rfl (by decide),
   c10_request_gating.2 (fun _ _ => "") ⟨"sekret", "hmac"⟩
     ⟨"POST", "/fareharbor/webhook", 2000000, some ("Bearer " ++ "sekret"), none,
      none, none, "big"⟩ rfl rfl (by decide)⟩
